import Mathlib

/-!
Verification of the C2-Graph commitment lifecycle tracker and
contradiction-detection engine (scripts/prototype).

The Lean definitions below are a shallow embedding of the Python sources:

* `c2_models.py` — `CommitmentStateEnum`, `UtteranceEvent`, `MeetingRecord`
  (turn-stable sorting of utterances, `commitments()` bucketing),
  `iter_commitment_states`;
* `constraint_validator.py` — `ALLOWED_TRANSITIONS`, `CommitmentContext`,
  `ConstraintValidator._validate_commitment` / `_validate_cancel` /
  `_next_state` / `validate`, and the constraint set built by `_run_cp`;
* `c2_graph_baseline.py` — `CommitmentState`, `analyse_meeting`,
  `summarise_metrics`, `suggest_action`;
* `c2_batch_report.py` — `aggregate_metrics`.

Python `Optional[str]` fields are modelled as `Option String`, and Python
truthiness of such a value (`None` and `""` are falsy) as `truthy`; the
`a or b` idiom is `pyOr`.  Python dicts keyed by commitment id are modelled
as insertion-ordered association lists (`dget` / `dset` mirror
`d.get(k)` and in-place `d[k] = v` / `d.setdefault`).  `Counter` histograms
are modelled as count functions `String → Nat` (a Python dict with no zero
counts is determined by that function).  The float `contradiction_rate`
is modelled in `ℚ`: the properties at stake (membership in `[0,1]`,
equality with `0`, and recomputation from summed integer counts) are exact
in IEEE double arithmetic for these integer operands, so `ℚ` is faithful.
String `.strip()` normalisation is not modelled: inputs are assumed
whitespace-trimmed, as produced by the validated event model.
-/

namespace C2

/-- Speech acts (`ActLiteral` in `c2_models.py`). -/
inductive Act where
  | ASSIGN
  | CONFIRM
  | REVISE
  | CANCEL
  | OTHER
deriving DecidableEq

/-- How an act renders inside a Python f-string. -/
def Act.str : Act → String
  | .ASSIGN => "ASSIGN"
  | .CONFIRM => "CONFIRM"
  | .REVISE => "REVISE"
  | .CANCEL => "CANCEL"
  | .OTHER => "OTHER"

/-- `CommitmentStateEnum` from `c2_models.py`. -/
inductive CommitmentStateEnum where
  | UNASSIGNED
  | ASSIGNED_PENDING
  | CONFIRMED
  | REVISED_PENDING
  | CANCELLED
deriving DecidableEq

/-- `.name` of the enum member, as interpolated in descriptions. -/
def CommitmentStateEnum.name : CommitmentStateEnum → String
  | .UNASSIGNED => "UNASSIGNED"
  | .ASSIGNED_PENDING => "ASSIGNED_PENDING"
  | .CONFIRMED => "CONFIRMED"
  | .REVISED_PENDING => "REVISED_PENDING"
  | .CANCELLED => "CANCELLED"

/-- Python truthiness of an `Optional[str]`: `None` and `""` are falsy. -/
def truthy : Option String → Bool
  | none => false
  | some s => !(s == "")

/-- Python `a or b` on `Optional[str]` values. -/
def pyOr (a b : Option String) : Option String :=
  if truthy a then a else b

/-- `UtteranceEvent` (`c2_models.py`), restricted to the fields the
analysis reads.  `task`, `reason`, `question_refs`, `confidence` and
`metadata` are carried by the Python record but never read by the
tracker, the baseline analysis or the metrics. -/
structure UtteranceEvent where
  turn : Nat
  timestamp : String
  speaker : String
  text : String
  act : Act
  commitment_id : Option String := none
  owner : Option String := none
  due : Option String := none
  new_owner : Option String := none
  new_due : Option String := none
deriving DecidableEq

/-- The commitment id an event contributes under
`if event.commitment_id:` truthiness. -/
def tcid (ev : UtteranceEvent) : Option String :=
  if truthy ev.commitment_id then ev.commitment_id else none

/-- `MeetingRecord` (`c2_models.py`), restricted to the fields the
analysis reads (`meeting_id`, turn-sorted `utterances`). -/
structure MeetingRecord where
  meeting_id : String
  utterances : List UtteranceEvent

/-- The stable ascending-by-turn sort applied by
`MeetingRecord.__post_init__` (`parsed_utterances.sort(key=ev.turn)`;
Python `list.sort` is a stable mergesort). -/
def sort_utterances (us : List UtteranceEvent) : List UtteranceEvent :=
  us.mergeSort (fun a b => decide (a.turn ≤ b.turn))

/-- One bucket-insertion step of `MeetingRecord.commitments()`:
`bucket.setdefault(cid, []).append(event)`. -/
def bucket_add (acc : List (String × List UtteranceEvent)) (cid : String)
    (ev : UtteranceEvent) : List (String × List UtteranceEvent) :=
  match acc with
  | [] => [(cid, [ev])]
  | (k, evs) :: rest =>
    if k = cid then (k, evs ++ [ev]) :: rest
    else (k, evs) :: bucket_add rest cid ev

/-- `MeetingRecord.commitments()`: events grouped by truthy commitment id,
buckets in first-occurrence order, events in list order. -/
def commitments (utterances : List UtteranceEvent) :
    List (String × List UtteranceEvent) :=
  utterances.foldl
    (fun acc ev =>
      match tcid ev with
      | some cid => bucket_add acc cid ev
      | none => acc)
    []

/-- `iter_commitment_states` step: the state after one event
(`OTHER` leaves the state unchanged). -/
def iter_next (current : CommitmentStateEnum) (ev : UtteranceEvent) :
    CommitmentStateEnum :=
  match ev.act with
  | .ASSIGN => .ASSIGNED_PENDING
  | .CONFIRM => .CONFIRMED
  | .REVISE => .REVISED_PENDING
  | .CANCEL => .CANCELLED
  | .OTHER => current

/-- Tail of the state log produced by `iter_commitment_states`. -/
def iter_go (current : CommitmentStateEnum) :
    List UtteranceEvent → List CommitmentStateEnum
  | [] => []
  | ev :: rest =>
    let c := iter_next current ev
    c :: iter_go c rest

/-- `iter_commitment_states` (`c2_models.py`): state log starting from
`UNASSIGNED`, one further entry per event. -/
def iter_commitment_states (events : List UtteranceEvent) :
    List CommitmentStateEnum :=
  .UNASSIGNED :: iter_go .UNASSIGNED events

/-! ## constraint_validator.py -/

/-- `ALLOWED_TRANSITIONS` (`ALLOWED_TRANSITIONS.get(act, ())` yields `[]`
for `OTHER`). -/
def ALLOWED_TRANSITIONS : Act →
    List (CommitmentStateEnum × CommitmentStateEnum)
  | .ASSIGN => [(.UNASSIGNED, .ASSIGNED_PENDING), (.CANCELLED, .ASSIGNED_PENDING)]
  | .CONFIRM => [(.ASSIGNED_PENDING, .CONFIRMED), (.REVISED_PENDING, .CONFIRMED)]
  | .REVISE => [(.ASSIGNED_PENDING, .REVISED_PENDING),
      (.CONFIRMED, .REVISED_PENDING), (.CANCELLED, .REVISED_PENDING)]
  | .CANCEL => [(.ASSIGNED_PENDING, .CANCELLED), (.CONFIRMED, .CANCELLED),
      (.REVISED_PENDING, .CANCELLED)]
  | .OTHER => []

/-- `CommitmentContext` (`constraint_validator.py`). -/
structure CommitmentContext where
  commitment_id : String
  owner : Option String := none
  due : Option String := none
  state : CommitmentStateEnum := .UNASSIGNED
  requires_confirmation : Bool := false
deriving DecidableEq

/-- `ConstraintViolation` (`c2_models.py`). -/
structure ConstraintViolation where
  commitment_id : String
  turn : Nat
  violation_type : String
  description : String
  speaker : Option String := none
  severity : String := "error"
deriving DecidableEq

/-- Speaker normalisation done by `ConstraintViolation.__post_init__`:
an empty speaker string becomes `None`. -/
def normSpeaker (s : Option String) : Option String :=
  if truthy s then s else none

/-- `ConstraintViolation` construction (with `__post_init__`
normalisation of the speaker field). -/
def mkViolation (cid : String) (turn : Nat) (ty desc : String)
    (speaker : Option String) (severity : String) : ConstraintViolation :=
  ⟨cid, turn, ty, desc, normSpeaker speaker, severity⟩

/-- `ConstraintValidator._next_state`. -/
def next_state (event : UtteranceEvent) : CommitmentStateEnum :=
  match event.act with
  | .ASSIGN => .ASSIGNED_PENDING
  | .CONFIRM => .CONFIRMED
  | .REVISE => .REVISED_PENDING
  | .CANCEL => .CANCELLED
  | .OTHER => .UNASSIGNED

/-- `ConstraintValidator._validate_cancel`: the four cancel-specific
checks, each an independent `if`, appended in this fixed order. -/
def validate_cancel (context : CommitmentContext) (event : UtteranceEvent) :
    List ConstraintViolation :=
  let v1 := if context.state = .UNASSIGNED then
      [mkViolation context.commitment_id event.turn "cancel_without_assignment"
        "ASSIGN 前に CANCEL が発生" (some event.speaker) "error"]
    else []
  let v2 := match context.owner with
    | some o =>
      if o ≠ "" ∧ event.speaker ≠ o then
        [mkViolation context.commitment_id event.turn "unauthorized_cancel"
          ("オーナー " ++ o ++ " 以外が CANCEL を実施") (some event.speaker) "error"]
      else []
    | none => []
  let v3 := if context.state = .CANCELLED then
      [mkViolation context.commitment_id event.turn "duplicate_cancel"
        "既にキャンセル済みのコミットメントに対する重複CANCEL" (some event.speaker) "error"]
    else []
  let v4 := if context.requires_confirmation then
      [mkViolation context.commitment_id event.turn "cancel_before_confirmation"
        "REVISE/ASSIGN の確認前にCANCEL" (some event.speaker) "error"]
    else []
  v1 ++ v2 ++ v3 ++ v4

/-- Body of the event loop of `ConstraintValidator._validate_commitment`:
transition-table check, then act-specific bookkeeping.  Returns the
mutated context and the violations appended while processing this event
(in append order). -/
def validate_step (context : CommitmentContext) (event : UtteranceEvent) :
    CommitmentContext × List ConstraintViolation :=
  let allowed := ALLOWED_TRANSITIONS event.act
  let tv : List ConstraintViolation :=
    if allowed ≠ [] ∧ (context.state, next_state event) ∉ allowed then
      [mkViolation context.commitment_id event.turn "invalid_transition"
        (context.state.name ++ " から " ++ event.act.str ++ " は許可されていない遷移")
        (some event.speaker) "error"]
    else []
  match event.act with
  | .ASSIGN =>
    ({ context with
        owner := pyOr event.owner context.owner,
        due := pyOr event.due context.due,
        requires_confirmation := true,
        state := .ASSIGNED_PENDING }, tv)
  | .CONFIRM =>
    let cv := if context.state = .UNASSIGNED then
        [mkViolation context.commitment_id event.turn "confirm_without_assign"
          "ASSIGN が存在しない状態で CONFIRM が発生" (some event.speaker) "error"]
      else []
    ({ context with
        owner := pyOr context.owner (pyOr event.owner (some event.speaker)),
        requires_confirmation := false,
        state := .CONFIRMED }, tv ++ cv)
  | .REVISE =>
    let rv := if context.state = .UNASSIGNED then
        [mkViolation context.commitment_id event.turn "revise_without_assign"
          "ASSIGN 前に REVISE が発生" (some event.speaker) "error"]
      else []
    ({ context with
        owner := if truthy event.new_owner then event.new_owner else context.owner,
        due := if truthy event.new_due then event.new_due else context.due,
        requires_confirmation := true,
        state := .REVISED_PENDING }, tv ++ rv)
  | .CANCEL =>
    let cv := validate_cancel context event
    ({ context with
        requires_confirmation := false,
        state := .CANCELLED }, tv ++ cv)
  | .OTHER => (context, tv)

/-- The event loop of `_validate_commitment` (violations in emission
order, context threaded through). -/
def validate_loop (context : CommitmentContext) :
    List UtteranceEvent → CommitmentContext × List ConstraintViolation
  | [] => (context, [])
  | ev :: rest =>
    let s := validate_step context ev
    let r := validate_loop s.1 rest
    (r.1, s.2 ++ r.2)

/-- End-of-replay check of `_validate_commitment`: `missing_confirmation`
when the awaiting-confirmation flag survives a nonempty replay. -/
def final_check (context : CommitmentContext)
    (events : List UtteranceEvent) : List ConstraintViolation :=
  if context.requires_confirmation then
    match events.getLast? with
    | some last =>
      [mkViolation context.commitment_id last.turn "missing_confirmation"
        "ASSIGN/REVISE 後に CONFIRM が未完了"
        (pyOr context.owner (some last.speaker)) "warning"]
    | none => []
  else []

/-- `ConstraintValidator._validate_commitment`, also exposing the final
context (the Python method returns only the violation list but mutates
the context in place). -/
def validate_commitment (context : CommitmentContext)
    (events : List UtteranceEvent) :
    CommitmentContext × List ConstraintViolation :=
  let r := validate_loop context events
  (r.1, r.2 ++ final_check r.1 events)

/-- `ConstraintSummary` (`c2_models.py`); the `stages` / `cp_status`
dicts are insertion-ordered association lists. -/
structure ConstraintSummary where
  meeting_id : String
  total_commitments : Nat
  violation_count : Nat
  violations : List ConstraintViolation
  stages : List (String × List CommitmentStateEnum)
  cp_status : List (String × String)
deriving DecidableEq

/-- Per-commitment body of `ConstraintValidator.validate`, parametric in
the CP backend `run_cp` (the OR-Tools solver is an external library; the
claim-relevant behaviour of `validate` depends only on the status string
and witness it returns).  Yields the violations for this commitment (rule
violations, then the `cp_infeasible_transition` violation on
`INFEASIBLE`), the reported stage trace (`iter_commitment_states`,
replaced by the CP witness on `FEASIBLE`), and the CP status. -/
def validate_one (enable_cp : Bool)
    (run_cp : List UtteranceEvent → String × Option (List CommitmentStateEnum))
    (cid : String) (events : List UtteranceEvent) :
    List ConstraintViolation × List CommitmentStateEnum × String :=
  let vs := (validate_commitment ⟨cid, none, none, .UNASSIGNED, false⟩ events).2
  if enable_cp then
    let r := run_cp events
    if r.1 = "INFEASIBLE" then
      (vs ++ [mkViolation cid (match events with | [] => 0 | e :: _ => e.turn)
          "cp_infeasible_transition" "OR-Tools による遷移制約が充足不能" none "error"],
        iter_commitment_states events, r.1)
    else if r.1 = "FEASIBLE" then
      (vs, (match r.2 with
        | some states => states
        | none => iter_commitment_states events), r.1)
    else (vs, iter_commitment_states events, r.1)
  else (vs, iter_commitment_states events, "SKIPPED")

/-- `ConstraintValidator.validate`: loop over `meeting.commitments()`
(bucket keys are pairwise distinct, so `len(stages)` is the number of
buckets and each bucket's final `stages[cid]` assignment is captured by
`validate_one`). -/
def validate (enable_cp : Bool)
    (run_cp : List UtteranceEvent → String × Option (List CommitmentStateEnum))
    (meeting : MeetingRecord) : ConstraintSummary :=
  let buckets := commitments meeting.utterances
  let results := buckets.map (fun p => (p.1, validate_one enable_cp run_cp p.1 p.2))
  let violations := results.flatMap (fun r => r.2.1)
  { meeting_id := meeting.meeting_id
    total_commitments := buckets.length
    violation_count := violations.length
    violations := violations
    stages := results.map (fun r => (r.1, r.2.2.1))
    cp_status := results.map (fun r => (r.1, r.2.2.2)) }

/-- One step of the constraint set built by `ConstraintValidator._run_cp`:
for an act with table entries, `(prev, next)` must be an allowed pair
(`AddAllowedAssignments`); for an act without entries the state is forced
equal to the previous variable. -/
def cp_steps (prev : CommitmentStateEnum) :
    List UtteranceEvent → List CommitmentStateEnum → Bool
  | [], [] => true
  | ev :: evs, s :: ss =>
    (if ALLOWED_TRANSITIONS ev.act = [] then s == prev
     else (ALLOWED_TRANSITIONS ev.act).contains (prev, s)) && cp_steps s evs ss
  | _, _ => false

/-- The full constraint set of `_run_cp` on a candidate state assignment:
one state per variable `state_0 .. state_n` (`n = len(events)`),
`state_0 = UNASSIGNED`, and every consecutive pair constrained as above.
`FEASIBLE` is reported with a witness exactly when the solver finds an
assignment satisfying these constraints. -/
def cp_constraints (events : List UtteranceEvent)
    (states : List CommitmentStateEnum) : Bool :=
  match states with
  | s0 :: rest => s0 == .UNASSIGNED && cp_steps s0 events rest
  | [] => false

/-! ## c2_graph_baseline.py -/

/-- `CommitmentState` (`c2_graph_baseline.py`); `history` holds the
recorded events (`event.model_dump()` dicts in Python). -/
structure CommitmentState where
  commitment_id : String
  owner : Option String := none
  due : Option String := none
  status : String := "assigned"
  history : List UtteranceEvent := []
  requires_confirmation : Bool := false
deriving DecidableEq

/-- A contradiction dict appended by `analyse_meeting`.  `turn` and
`speaker` are `Option`s because the `missing_confirmation` entry reads
them with `last_event.get(...)`. -/
structure Contradiction where
  turn : Option Nat
  commitment_id : String
  type : String
  speaker : Option String
  detail : String
  suggestion : String
deriving DecidableEq

/-- `suggest_action` over `CONTRADICTION_SUGGESTIONS`. -/
def suggest_action (t : String) : String :=
  if t = "cancel_without_assignment" then
    "ASSIGNの記録が残っているか確認し、割り当て情報を明示した上でキャンセルを宣言する。"
  else if t = "unauthorized_cancel" then
    "コミットメントのオーナー本人、または合意を得たファシリテータがキャンセルを宣言できる状況に揃える。"
  else if t = "duplicate_cancel" then
    "一度キャンセルした場合は進行ログを共有し、重複報告を避ける運用にする。"
  else if t = "cancel_before_confirmation" then
    "REVISE/ASSIGN後は担当者のCONFIRMを待ち、必要に応じてリマインドを送る。"
  else if t = "missing_confirmation" then
    "ASSIGN/REVISE後の確認が抜けていないかを点検し、担当者から明示的なCONFIRM発話を得る。"
  else "矛盾の原因を確認し、担当者全員で是正手順を合意する。"

/-- The `commitments` dict of `analyse_meeting`: an insertion-ordered
association list. -/
abbrev CDict := List (String × CommitmentState)

/-- `commitments.get(cid)`. -/
def dget : CDict → String → Option CommitmentState
  | [], _ => none
  | (k, v) :: rest, cid => if k = cid then some v else dget rest cid

/-- Store a commitment state under its id: replace in place when the key
exists (Python mutates the stored object), append otherwise
(`dict.setdefault` insertion order). -/
def dset : CDict → String → CommitmentState → CDict
  | [], cid, st => [(cid, st)]
  | (k, v) :: rest, cid, st =>
    if k = cid then (k, st) :: rest else (k, v) :: dset rest cid st

/-- Fresh `CommitmentState(cid)`. -/
def initState (cid : String) : CommitmentState :=
  { commitment_id := cid }

/-- The state stored back by one `analyse_meeting` loop iteration for a
commitment-bearing event, as a function of the previously stored state
(`none` when the id was not yet in the dict). -/
def step_state (cid : String) (st? : Option CommitmentState)
    (ev : UtteranceEvent) : CommitmentState :=
  match ev.act with
  | .ASSIGN =>
    let st := st?.getD (initState cid)
    { st with
        owner := pyOr ev.owner st.owner,
        due := pyOr ev.due st.due,
        status := "assigned",
        requires_confirmation := true,
        history := st.history ++ [ev] }
  | .CONFIRM =>
    let st := st?.getD (initState cid)
    { st with
        owner := pyOr st.owner (pyOr ev.owner (some ev.speaker)),
        status := "confirmed",
        requires_confirmation := false,
        history := st.history ++ [ev] }
  | .REVISE =>
    let st := st?.getD (initState cid)
    { st with
        owner := if truthy ev.new_owner then ev.new_owner else st.owner,
        due := if truthy ev.new_due then ev.new_due else st.due,
        status := "revised",
        requires_confirmation := true,
        history := st.history ++ [ev] }
  | .CANCEL =>
    let st := st?.getD (initState cid)
    { st with
        status := "cancelled",
        requires_confirmation := false,
        history := st.history ++ [ev] }
  | .OTHER =>
    let st := st?.getD (initState cid)
    { st with history := st.history ++ [ev] }

/-- The contradictions appended by one `analyse_meeting` loop iteration
for a commitment-bearing event.  Only `CANCEL` emits: on a previously
unseen id just `cancel_without_assignment` (the branch `continue`s);
otherwise the `unauthorized_cancel` / `duplicate_cancel` `elif` chain
followed by the independent `cancel_before_confirmation` check. -/
def step_block (cid : String) (st? : Option CommitmentState)
    (ev : UtteranceEvent) : List Contradiction :=
  match ev.act with
  | .CANCEL =>
    match st? with
    | none =>
      [⟨some ev.turn, cid, "cancel_without_assignment", some ev.speaker,
        "ASSIGN前にCANCELが発生", suggest_action "cancel_without_assignment"⟩]
    | some st =>
      let dup : List Contradiction :=
        if st.status = "cancelled" then
          [⟨some ev.turn, cid, "duplicate_cancel", some ev.speaker,
            "既にCANCEL済みのコミットメント", suggest_action "duplicate_cancel"⟩]
        else []
      let c1 : List Contradiction :=
        match st.owner with
        | some o =>
          if o ≠ "" ∧ ev.speaker ≠ o then
            [⟨some ev.turn, cid, "unauthorized_cancel", some ev.speaker,
              "オーナー(" ++ o ++ ")以外がCANCEL", suggest_action "unauthorized_cancel"⟩]
          else dup
        | none => dup
      let c2 : List Contradiction :=
        if st.requires_confirmation then
          [⟨some ev.turn, cid, "cancel_before_confirmation", some ev.speaker,
            "REVISE/ASSIGN の確認前にCANCEL", suggest_action "cancel_before_confirmation"⟩]
        else []
      c1 ++ c2
  | _ => []

/-- One iteration of the `analyse_meeting` event loop: events without a
truthy commitment id are skipped; otherwise the stored state is updated
and the iteration's contradictions are emitted. -/
def analyse_step (d : CDict) (ev : UtteranceEvent) :
    CDict × List Contradiction :=
  match tcid ev with
  | none => (d, [])
  | some cid => (dset d cid (step_state cid (dget d cid) ev),
      step_block cid (dget d cid) ev)

/-- The full `analyse_meeting` event loop (contradictions in emission
order). -/
def analyse_loop (d : CDict) :
    List UtteranceEvent → CDict × List Contradiction
  | [] => (d, [])
  | ev :: rest =>
    let s := analyse_step d ev
    let r := analyse_loop s.1 rest
    (r.1, s.2 ++ r.2)

/-- The post-loop sweep of `analyse_meeting`: one `missing_confirmation`
contradiction per stored state whose awaiting-confirmation flag is still
set. -/
def final_one (p : String × CommitmentState) : Option Contradiction :=
  if p.2.requires_confirmation then
    some ⟨(p.2.history.getLast?).map (fun e => e.turn), p.2.commitment_id,
      "missing_confirmation",
      pyOr p.2.owner ((p.2.history.getLast?).map (fun e => e.speaker)),
      "ASSIGN/REVISE後にCONFIRMが未完了", suggest_action "missing_confirmation"⟩
  else none

/-- Per-meeting metrics (`summarise_metrics` return dict); the
`contradiction_types` histogram is the count function of the `Counter`. -/
structure Metrics where
  total_commitments : Nat
  contradiction_count : Nat
  contradicted_commitments : Nat
  contradiction_rate : ℚ
  contradiction_types : String → Nat

/-- `summarise_metrics` (`c2_graph_baseline.py`). -/
def summarise_metrics (cdict : CDict) (contradictions : List Contradiction) :
    Metrics :=
  let total := cdict.length
  let contradicted := ((contradictions.map (fun c => c.commitment_id)).dedup).length
  { total_commitments := total
    contradiction_count := contradictions.length
    contradicted_commitments := contradicted
    contradiction_rate := if total = 0 then 0 else (contradicted : ℚ) / (total : ℚ)
    contradiction_types := fun t =>
      contradictions.countP (fun c => c.type == t) }

/-- The `analyse_meeting` result dict, restricted to the analysis fields
(the `graph` entry is external `networkx` rendering glue and carries no
analysis data). -/
structure AnalysisResult where
  meeting_id : String
  commitments : CDict
  contradictions : List Contradiction
  metrics : Metrics

/-- `analyse_meeting` (`c2_graph_baseline.py`). -/
def analyse_meeting (meeting : MeetingRecord) : AnalysisResult :=
  let r := analyse_loop [] meeting.utterances
  let contradictions := r.2 ++ r.1.filterMap final_one
  { meeting_id := meeting.meeting_id
    commitments := r.1
    contradictions := contradictions
    metrics := summarise_metrics r.1 contradictions }

/-! ## c2_batch_report.py -/

/-- The dict returned by `aggregate_metrics`. -/
structure AggregateMetrics where
  meetings : Nat
  total_commitments : Nat
  contradiction_count : Nat
  contradicted_commitments : Nat
  contradiction_rate : ℚ
  contradiction_types : String → Nat

/-- `aggregate_metrics` (`c2_batch_report.py`): fields summed across
meetings, rate recomputed from the summed counts. -/
def aggregate_metrics (results : List Metrics) : AggregateMetrics :=
  let total := (results.map (fun r => r.total_commitments)).sum
  let contradicted := (results.map (fun r => r.contradicted_commitments)).sum
  { meetings := results.length
    total_commitments := total
    contradiction_count := (results.map (fun r => r.contradiction_count)).sum
    contradicted_commitments := contradicted
    contradiction_rate := if total = 0 then 0 else (contradicted : ℚ) / (total : ℚ)
    contradiction_types := fun t =>
      (results.map (fun r => r.contradiction_types t)).sum }

/-! ## Helper lemmas -/

theorem iter_go_length (cur : CommitmentStateEnum)
    (events : List UtteranceEvent) :
    (iter_go cur events).length = events.length := by
  induction events generalizing cur with
  | nil => rfl
  | cons e rest ih => simp [iter_go, ih]

theorem iter_go_other (cur : CommitmentStateEnum) :
    ∀ (events : List UtteranceEvent) (i : Nat) (e : UtteranceEvent),
      events.get? i = some e → e.act = .OTHER →
      (cur :: iter_go cur events).get? (i + 1) =
        (cur :: iter_go cur events).get? i := by
  intro events
  induction events generalizing cur with
  | nil => intro i e h; simp at h
  | cons e0 rest ih =>
    intro i e h hact
    cases i with
    | zero =>
      simp only [List.get?] at h
      cases h
      simp [iter_go, iter_next, hact]
    | succ j =>
      have := ih (iter_next cur e0) j e h hact
      simpa [iter_go] using this

theorem cp_steps_other (prev : CommitmentStateEnum) :
    ∀ (events : List UtteranceEvent) (states : List CommitmentStateEnum),
      cp_steps prev events states = true →
      (states.length = events.length ∧
        ∀ i e, events.get? i = some e → e.act = .OTHER →
          (prev :: states).get? (i + 1) = (prev :: states).get? i) := by
  intro events
  induction events generalizing prev with
  | nil =>
    intro states h
    cases states with
    | nil => exact ⟨rfl, by intro i e hi; simp at hi⟩
    | cons s ss => simp [cp_steps] at h
  | cons e0 rest ih =>
    intro states h
    cases states with
    | nil => simp [cp_steps] at h
    | cons s ss =>
      simp only [cp_steps, Bool.and_eq_true] at h
      obtain ⟨h1, h2⟩ := h
      obtain ⟨hlen, hoth⟩ := ih s ss h2
      refine ⟨by simp [hlen], ?_⟩
      intro i e hi hact
      cases i with
      | zero =>
        simp only [List.get?] at hi
        cases hi
        have : ALLOWED_TRANSITIONS e0.act = [] := by
          rw [hact]; rfl
        rw [this] at h1
        simp only [if_pos rfl] at h1
        have : s = prev := by simpa using h1
        simp [this]
      | succ j =>
        have := hoth j e hi hact
        simpa using this

theorem validate_cancel_types (ctx : CommitmentContext) (ev : UtteranceEvent) :
    ∀ v ∈ validate_cancel ctx ev,
      v.violation_type = "cancel_without_assignment" ∨
      v.violation_type = "unauthorized_cancel" ∨
      v.violation_type = "duplicate_cancel" ∨
      v.violation_type = "cancel_before_confirmation" := by
  intro v hv
  simp only [validate_cancel, List.mem_append] at hv
  rcases hv with ((h | h) | h) | h
  · left; split at h <;> simp_all [mkViolation]
  · rcases howner : ctx.owner with _ | o <;> rw [howner] at h
    · simp at h
    · right; left
      split at h <;> simp_all [mkViolation]
  · right; right; left; split at h <;> simp_all [mkViolation]
  · right; right; right; split at h <;> simp_all [mkViolation]

theorem validate_step_types (ctx : CommitmentContext) (ev : UtteranceEvent) :
    ∀ v ∈ (validate_step ctx ev).2,
      v.violation_type = "invalid_transition" ∨
      v.violation_type = "confirm_without_assign" ∨
      v.violation_type = "revise_without_assign" ∨
      v.violation_type = "cancel_without_assignment" ∨
      v.violation_type = "unauthorized_cancel" ∨
      v.violation_type = "duplicate_cancel" ∨
      v.violation_type = "cancel_before_confirmation" := by
  intro v hv
  cases hact : ev.act <;>
    simp only [validate_step, hact, List.mem_append] at hv
  case ASSIGN =>
    left; split at hv <;> simp_all [mkViolation]
  case CONFIRM =>
    rcases hv with h | h
    · left; split at h <;> simp_all [mkViolation]
    · right; left; split at h <;> simp_all [mkViolation]
  case REVISE =>
    rcases hv with h | h
    · left; split at h <;> simp_all [mkViolation]
    · right; right; left; split at h <;> simp_all [mkViolation]
  case CANCEL =>
    rcases hv with h | h
    · left; split at h <;> simp_all [mkViolation]
    · have := validate_cancel_types ctx ev v h
      tauto
  case OTHER =>
    left; split at hv <;> simp_all [mkViolation]

theorem validate_step_no_missing (ctx : CommitmentContext)
    (ev : UtteranceEvent) :
    ∀ v ∈ (validate_step ctx ev).2, v.violation_type ≠ "missing_confirmation" := by
  intro v hv
  rcases validate_step_types ctx ev v hv with h | h | h | h | h | h | h <;>
    rw [h] <;> decide

theorem step_block_excl (cid : String) (st? : Option CommitmentState)
    (ev : UtteranceEvent) :
    ¬ ((∃ c ∈ step_block cid st? ev, c.type = "unauthorized_cancel") ∧
       (∃ c ∈ step_block cid st? ev, c.type = "duplicate_cancel")) := by
  rintro ⟨⟨cu, hcu, hcut⟩, ⟨cd, hcd, hcdt⟩⟩
  cases hact : ev.act <;> simp only [step_block, hact] at hcu hcd
  case CANCEL =>
    rcases st? with _ | st
    · simp at hcu hcd
      subst hcu
      simp at hcut
    · simp only [List.mem_append] at hcu hcd
      rcases hcu with hcu | hcu
      · rcases hcd with hcd | hcd
        · rcases howner : st.owner with _ | o <;>
            simp only [howner] at hcu hcd
          · split at hcu <;> simp_all
          · by_cases hcond : ¬o = "" ∧ ¬ev.speaker = o
            · rw [if_pos hcond] at hcd
              simp at hcd
              simp_all
            · rw [if_neg hcond] at hcu
              split at hcu <;> simp_all
        · split at hcd <;> simp_all
      · split at hcu <;> simp_all
  all_goals simp_all

theorem validate_cancel_unauth_iff (ctx : CommitmentContext)
    (ev : UtteranceEvent) :
    (∃ v ∈ validate_cancel ctx ev, v.violation_type = "unauthorized_cancel") ↔
      (∃ o, ctx.owner = some o ∧ o ≠ "" ∧ ev.speaker ≠ o) := by
  constructor
  · rintro ⟨v, hv, hvt⟩
    simp only [validate_cancel, List.mem_append] at hv
    rcases hv with ((h | h) | h) | h
    · split at h <;> simp_all [mkViolation]
    · rcases howner : ctx.owner with _ | o <;> rw [howner] at h
      · simp at h
      · split at h
        · exact ⟨o, rfl, by simp_all⟩
        · simp at h
    · split at h <;> simp_all [mkViolation]
    · split at h <;> simp_all [mkViolation]
  · rintro ⟨o, ho, hne, hsp⟩
    refine ⟨mkViolation ctx.commitment_id ev.turn "unauthorized_cancel"
      ("オーナー " ++ o ++ " 以外が CANCEL を実施") (some ev.speaker) "error", ?_, rfl⟩
    simp only [validate_cancel, List.mem_append, ho]
    left; left; right
    rw [if_pos ⟨hne, hsp⟩]
    simp

theorem validate_cancel_dup_iff (ctx : CommitmentContext)
    (ev : UtteranceEvent) :
    (∃ v ∈ validate_cancel ctx ev, v.violation_type = "duplicate_cancel") ↔
      ctx.state = .CANCELLED := by
  constructor
  · rintro ⟨v, hv, hvt⟩
    simp only [validate_cancel, List.mem_append] at hv
    rcases hv with ((h | h) | h) | h
    · split at h <;> simp_all [mkViolation]
    · rcases howner : ctx.owner with _ | o <;> rw [howner] at h
      · simp at h
      · split at h <;> simp_all [mkViolation]
    · split at h <;> simp_all [mkViolation]
    · split at h <;> simp_all [mkViolation]
  · intro hst
    refine ⟨mkViolation ctx.commitment_id ev.turn "duplicate_cancel"
      "既にキャンセル済みのコミットメントに対する重複CANCEL" (some ev.speaker) "error", ?_, rfl⟩
    simp only [validate_cancel, List.mem_append, hst]
    left; right
    simp

/-- Events of the C1 counterexample: `C1` is assigned to Alice (turn 1),
cancelled by Alice (turn 2), then cancelled again by Bob (turn 3). -/
def c1_ev1 : UtteranceEvent :=
  { turn := 1, timestamp := "00:00:01", speaker := "Alice", text := "assign",
    act := .ASSIGN, commitment_id := some "C1", owner := some "Alice" }

def c1_ev2 : UtteranceEvent :=
  { turn := 2, timestamp := "00:00:02", speaker := "Alice", text := "cancel",
    act := .CANCEL, commitment_id := some "C1" }

def c1_ev3 : UtteranceEvent :=
  { turn := 3, timestamp := "00:00:03", speaker := "Bob", text := "cancel",
    act := .CANCEL, commitment_id := some "C1" }

/-- C1 counterexample: in `ConstraintValidator._validate_cancel` the
`unauthorized_cancel` and `duplicate_cancel` checks are independent `if`
statements, not an `else-if`: on the single CANCEL event at turn 3 of
`[ASSIGN(Alice), CANCEL(Alice), CANCEL(Bob)]` (owner recorded as Alice,
state already CANCELLED) the validator emits both violation kinds, so
they are not mutually exclusive. -/
theorem C1_counterexample :
    ((validate_commitment ⟨"C1", none, none, .UNASSIGNED, false⟩
        [c1_ev1, c1_ev2, c1_ev3]).2.countP
      (fun v => v.violation_type == "unauthorized_cancel" && v.turn == 3) = 1) ∧
    ((validate_commitment ⟨"C1", none, none, .UNASSIGNED, false⟩
        [c1_ev1, c1_ev2, c1_ev3]).2.countP
      (fun v => v.violation_type == "duplicate_cancel" && v.turn == 3) = 1) := by
  decide

/-- C1 (amended): in `analyse_meeting` (`c2_graph_baseline.py`) the
`unauthorized_cancel` and `duplicate_cancel` checks are mutually
exclusive (`elif`, `unauthorized_cancel` taking priority): one event
never emits both.  In `ConstraintValidator._validate_cancel` the two
checks are independent `if`s: `unauthorized_cancel` is emitted exactly
when an owner is recorded and the cancelling speaker differs from it,
and `duplicate_cancel` exactly when the current state is already
CANCELLED, so one CANCEL event can emit both (unauthorized first). -/
theorem C1_cancel_checks (d : CDict) (ev : UtteranceEvent)
    (ctx : CommitmentContext) :
    (¬ ((∃ c ∈ (analyse_step d ev).2, c.type = "unauthorized_cancel") ∧
        (∃ c ∈ (analyse_step d ev).2, c.type = "duplicate_cancel"))) ∧
    ((∃ v ∈ validate_cancel ctx ev, v.violation_type = "unauthorized_cancel") ↔
      (∃ o, ctx.owner = some o ∧ o ≠ "" ∧ ev.speaker ≠ o)) ∧
    ((∃ v ∈ validate_cancel ctx ev, v.violation_type = "duplicate_cancel") ↔
      ctx.state = .CANCELLED) := by
  refine ⟨?_, validate_cancel_unauth_iff ctx ev, validate_cancel_dup_iff ctx ev⟩
  unfold analyse_step
  rcases htc : tcid ev with _ | cid
  · simp
  · exact step_block_excl cid (dget d cid) ev

/-- Witness for C1: a context whose state is already CANCELLED makes the
validator emit `duplicate_cancel`. -/
theorem C1_witness :
    ∃ v ∈ validate_cancel ⟨"C1", none, none, .CANCELLED, false⟩ c1_ev3,
      v.violation_type = "duplicate_cancel" :=
  (C1_cancel_checks [] c1_ev3 ⟨"C1", none, none, .CANCELLED, false⟩).2.2.mpr rfl

/-! ## Dictionary invariants of the baseline analysis -/

theorem dget_mem {d : CDict} {cid : String} {st : CommitmentState}
    (h : dget d cid = some st) : (cid, st) ∈ d := by
  induction d with
  | nil => simp [dget] at h
  | cons p rest ih =>
    obtain ⟨k, v⟩ := p
    by_cases hk : k = cid
    · subst hk
      simp [dget] at h
      simp [h]
    · simp [dget, hk] at h
      exact List.mem_cons_of_mem _ (ih h)

theorem mem_dset {d : CDict} {cid : String} {st : CommitmentState}
    {p : String × CommitmentState} (h : p ∈ dset d cid st) :
    p ∈ d ∨ p = (cid, st) := by
  induction d with
  | nil => simp [dset] at h; simp [h]
  | cons q rest ih =>
    obtain ⟨k, v⟩ := q
    by_cases hk : k = cid
    · subst hk
      simp [dset] at h
      rcases h with h | h
      · right; simp [h]
      · left; exact List.mem_cons_of_mem _ h
    · simp [dset, hk] at h
      rcases h with h | h
      · left; simp [h]
      · rcases ih h with h' | h'
        · left; exact List.mem_cons_of_mem _ h'
        · right; exact h'

theorem dset_map_fst (d : CDict) (cid : String) (st : CommitmentState) :
    (dset d cid st).map Prod.fst = d.map Prod.fst ∨
    (dset d cid st).map Prod.fst = d.map Prod.fst ++ [cid] := by
  induction d with
  | nil => right; simp [dset]
  | cons q rest ih =>
    obtain ⟨k, v⟩ := q
    by_cases hk : k = cid
    · subst hk; left; simp [dset]
    · rcases ih with h | h
      · left; simp [dset, hk, h]
      · right; simp [dset, hk, h]

theorem mem_keys_dset {d : CDict} {k cid : String} (st : CommitmentState)
    (h : k ∈ d.map Prod.fst) :
    k ∈ (dset d cid st).map Prod.fst := by
  rcases dset_map_fst d cid st with h' | h' <;> rw [h']
  · exact h
  · exact List.mem_append_left _ h

theorem cid_mem_keys_dset (d : CDict) (cid : String) (st : CommitmentState) :
    cid ∈ (dset d cid st).map Prod.fst := by
  induction d with
  | nil => simp [dset]
  | cons q rest ih =>
    obtain ⟨k, v⟩ := q
    by_cases hk : k = cid
    · subst hk; simp [dset]
    · simp [dset, hk]
      right
      simpa using ih

theorem step_block_cid (cid : String) (st? : Option CommitmentState)
    (ev : UtteranceEvent) :
    ∀ c ∈ step_block cid st? ev, c.commitment_id = cid := by
  intro c hc
  cases hact : ev.act <;> simp only [step_block, hact] at hc
  case CANCEL =>
    rcases st? with _ | st
    · simp at hc; simp [hc]
    · simp only [List.mem_append] at hc
      rcases hc with h | h
      · rcases howner : st.owner with _ | o <;> simp only [howner] at h
        · split at h <;> simp_all
        · split at h
          · simp at h; simp [h]
          · split at h <;> simp_all
      · split at h <;> simp_all
  all_goals simp_all

theorem analyse_step_keys_mono {d : CDict} (ev : UtteranceEvent)
    {k : String} (h : k ∈ d.map Prod.fst) :
    k ∈ (analyse_step d ev).1.map Prod.fst := by
  unfold analyse_step
  rcases tcid ev with _ | cid
  · exact h
  · exact mem_keys_dset _ h

theorem analyse_step_block_keys (d : CDict) (ev : UtteranceEvent) :
    ∀ c ∈ (analyse_step d ev).2,
      c.commitment_id ∈ (analyse_step d ev).1.map Prod.fst := by
  intro c hc
  unfold analyse_step at hc ⊢
  cases htc : tcid ev with
  | none => rw [htc] at hc; simp at hc
  | some cid =>
    rw [htc] at hc
    rw [step_block_cid cid (dget d cid) ev c hc]
    exact cid_mem_keys_dset _ _ _

theorem analyse_loop_keys_mono {d : CDict} (us : List UtteranceEvent)
    {k : String} (h : k ∈ d.map Prod.fst) :
    k ∈ (analyse_loop d us).1.map Prod.fst := by
  induction us generalizing d with
  | nil => exact h
  | cons ev rest ih =>
    simp only [analyse_loop]
    exact ih (analyse_step_keys_mono ev h)

theorem analyse_loop_cids (d : CDict) (us : List UtteranceEvent) :
    ∀ c ∈ (analyse_loop d us).2,
      c.commitment_id ∈ (analyse_loop d us).1.map Prod.fst := by
  induction us generalizing d with
  | nil => simp [analyse_loop]
  | cons ev rest ih =>
    intro c hc
    simp only [analyse_loop, List.mem_append] at hc ⊢
    rcases hc with hc | hc
    · exact analyse_loop_keys_mono rest (analyse_step_block_keys d ev c hc)
    · exact ih _ c hc

theorem step_state_cid (cid : String) (st? : Option CommitmentState)
    (ev : UtteranceEvent)
    (h : ∀ st, st? = some st → st.commitment_id = cid) :
    (step_state cid st? ev).commitment_id = cid := by
  have hbase : (st?.getD (initState cid)).commitment_id = cid := by
    rcases st? with _ | st
    · rfl
    · exact h st rfl
  cases hact : ev.act <;> simpa [step_state, hact] using hbase

theorem analyse_loop_cid_field {d : CDict} (us : List UtteranceEvent)
    (h : ∀ p ∈ d, p.2.commitment_id = p.1) :
    ∀ p ∈ (analyse_loop d us).1, p.2.commitment_id = p.1 := by
  induction us generalizing d with
  | nil => exact h
  | cons ev rest ih =>
    simp only [analyse_loop]
    refine ih ?_
    intro p hp
    unfold analyse_step at hp
    rcases htc : tcid ev with _ | cid
    · rw [htc] at hp; exact h p hp
    · rw [htc] at hp
      rcases mem_dset hp with h' | h'
      · exact h p h'
      · subst h'
        refine step_state_cid cid (dget d cid) ev ?_
        intro st hst
        exact h (cid, st) (dget_mem hst)

theorem analyse_contradiction_keys (meeting : MeetingRecord) :
    ∀ c ∈ (analyse_meeting meeting).contradictions,
      c.commitment_id ∈ (analyse_meeting meeting).commitments.map Prod.fst := by
  intro c hc
  simp only [analyse_meeting, List.mem_append] at hc ⊢
  rcases hc with hc | hc
  · exact analyse_loop_cids [] meeting.utterances c hc
  · rw [List.mem_filterMap] at hc
    obtain ⟨p, hp, hfo⟩ := hc
    have hcid : p.2.commitment_id = p.1 :=
      analyse_loop_cid_field meeting.utterances (by simp) p hp
    unfold final_one at hfo
    split at hfo
    · cases hfo
      simpa [hcid] using List.mem_map_of_mem Prod.fst hp
    · simp at hfo

/-- Events of the C2 counterexample: one commitment, assigned then
confirmed, with no contradiction. -/
def c2_ev1 : UtteranceEvent :=
  { turn := 1, timestamp := "00:00:01", speaker := "Alice", text := "assign",
    act := .ASSIGN, commitment_id := some "C1", owner := some "Alice" }

def c2_ev2 : UtteranceEvent :=
  { turn := 2, timestamp := "00:00:02", speaker := "Alice", text := "confirm",
    act := .CONFIRM, commitment_id := some "C1" }

def c2_meeting : MeetingRecord := ⟨"M-C2", [c2_ev1, c2_ev2]⟩

/-- C2 counterexample: a meeting with one commitment (`ASSIGN` then
`CONFIRM`, no violation) has `contradiction_rate = 0.0` while
`total_commitments = 1`, refuting the claimed equivalence
"rate = 0.0 iff total_commitments = 0". -/
theorem C2_counterexample :
    (analyse_meeting c2_meeting).metrics.contradiction_rate = 0 ∧
    (analyse_meeting c2_meeting).metrics.total_commitments = 1 := by
  constructor
  · show (if (1 : Nat) = 0 then (0 : ℚ) else ((0 : Nat) : ℚ) / ((1 : Nat) : ℚ)) = 0
    norm_num
  · decide

/-- C2 (amended): for every meeting the contradiction rate lies in
`[0, 1]`; it is `0.0` exactly when no commitment has a violation
(`contradicted_commitments = 0`), and in particular whenever
`total_commitments = 0`.  (The converse direction of the original claim
fails: a meeting with commitments but no violations also has rate 0.) -/
theorem C2_rate (meeting : MeetingRecord) :
    0 ≤ (analyse_meeting meeting).metrics.contradiction_rate ∧
    (analyse_meeting meeting).metrics.contradiction_rate ≤ 1 ∧
    ((analyse_meeting meeting).metrics.contradiction_rate = 0 ↔
      (analyse_meeting meeting).metrics.contradicted_commitments = 0) ∧
    ((analyse_meeting meeting).metrics.total_commitments = 0 →
      (analyse_meeting meeting).metrics.contradiction_rate = 0) := by
  set r := analyse_meeting meeting with hr
  have hsub : ((r.contradictions.map
      (fun c => c.commitment_id)).toFinset : Finset String) ⊆
      (r.commitments.map Prod.fst).toFinset := by
    intro x hx
    rw [List.mem_toFinset] at hx ⊢
    rw [List.mem_map] at hx
    obtain ⟨c, hc, hcx⟩ := hx
    subst hcx
    exact analyse_contradiction_keys meeting c hc
  have hle : (r.contradictions.map (fun c => c.commitment_id)).dedup.length ≤
      r.commitments.length := by
    calc (r.contradictions.map (fun c => c.commitment_id)).dedup.length
        = (r.contradictions.map (fun c => c.commitment_id)).toFinset.card :=
          (List.card_toFinset _).symm
      _ ≤ (r.commitments.map Prod.fst).toFinset.card := Finset.card_le_card hsub
      _ ≤ (r.commitments.map Prod.fst).length := List.toFinset_card_le _
      _ = r.commitments.length := List.length_map _ _
  have hmet : r.metrics = summarise_metrics r.commitments r.contradictions := by
    rw [hr]; rfl
  rw [hmet]
  unfold summarise_metrics
  by_cases htot : r.commitments.length = 0
  · simp only [htot, if_pos rfl]
    refine ⟨le_refl 0, zero_le_one, ?_, fun _ => rfl⟩
    simp only [htot] at hle
    constructor
    · intro _
      omega
    · intro _
      rfl
  · simp only [if_neg htot]
    have hpos : (0 : ℚ) < (r.commitments.length : ℚ) := by
      exact_mod_cast Nat.pos_of_ne_zero htot
    refine ⟨div_nonneg (by positivity) (le_of_lt hpos), ?_, ?_, ?_⟩
    · rw [div_le_one hpos]
      exact_mod_cast hle
    · rw [div_eq_zero_iff]
      constructor
      · rintro (h | h)
        · exact_mod_cast h
        · exact absurd h (ne_of_gt hpos)
      · intro h
        left
        exact_mod_cast h
    · intro h
      exact absurd h htot

/-- Witness for C2: at the concrete two-event meeting the amended
equivalence yields rate 0 from the violation-free run. -/
theorem C2_witness :
    (analyse_meeting c2_meeting).metrics.contradiction_rate = 0 :=
  (C2_rate c2_meeting).2.2.1.mpr (by decide)

theorem dget_dset_self (d : CDict) (cid : String) (st : CommitmentState) :
    dget (dset d cid st) cid = some st := by
  induction d with
  | nil => simp [dset, dget]
  | cons q rest ih =>
    obtain ⟨k, v⟩ := q
    by_cases hk : k = cid
    · subst hk; simp [dset, dget]
    · simp [dset, dget, hk, ih]

theorem validate_step_cid (ctx : CommitmentContext) (ev : UtteranceEvent) :
    (validate_step ctx ev).1.commitment_id = ctx.commitment_id := by
  cases hact : ev.act <;> simp [validate_step, hact]

theorem validate_loop_cid (ctx : CommitmentContext)
    (events : List UtteranceEvent) :
    (validate_loop ctx events).1.commitment_id = ctx.commitment_id := by
  induction events generalizing ctx with
  | nil => rfl
  | cons ev rest ih =>
    simp only [validate_loop]
    rw [ih, validate_step_cid]

theorem validate_loop_no_missing (ctx : CommitmentContext)
    (events : List UtteranceEvent) :
    ∀ v ∈ (validate_loop ctx events).2,
      v.violation_type ≠ "missing_confirmation" := by
  induction events generalizing ctx with
  | nil => simp [validate_loop]
  | cons ev rest ih =>
    intro v hv
    simp only [validate_loop, List.mem_append] at hv
    rcases hv with hv | hv
    · exact validate_step_no_missing ctx ev v hv
    · exact ih _ v hv

/-- Events of the C3 counterexample: the same commitment assigned twice,
first to Alice, then to Bob. -/
def c3_ev1 : UtteranceEvent :=
  { turn := 1, timestamp := "00:00:01", speaker := "Carol", text := "assign",
    act := .ASSIGN, commitment_id := some "C1", owner := some "Alice" }

def c3_ev2 : UtteranceEvent :=
  { turn := 2, timestamp := "00:00:02", speaker := "Carol", text := "assign",
    act := .ASSIGN, commitment_id := some "C1", owner := some "Bob" }

/-- C3 counterexample: `ASSIGN` uses `event.owner or context.owner`, so a
second `ASSIGN` with `owner=Bob` overwrites the already-set owner Alice —
the claim that an already-set owner is never overwritten fails. -/
theorem C3_counterexample :
    (validate_commitment ⟨"C1", none, none, .UNASSIGNED, false⟩
        [c3_ev1, c3_ev2]).1.owner = some "Bob" ∧
    (validate_commitment ⟨"C1", none, none, .UNASSIGNED, false⟩
        [c3_ev1, c3_ev2]).1.owner ≠ some "Alice" := by
  decide

/-- C3 (amended): an `ASSIGN` event sets owner/due FROM THE EVENT when
the event provides them, overwriting any already-set value, and keeps
the previous value only when the event omits the field; it always sets
the awaiting-confirmation flag and moves the state to ASSIGNED_PENDING.
The same precedence (`event.owner or state.owner`) holds in the
baseline `analyse_meeting`. -/
theorem C3_assign (ctx : CommitmentContext) (ev : UtteranceEvent)
    (h : ev.act = .ASSIGN) :
    ((truthy ev.owner = true → (validate_step ctx ev).1.owner = ev.owner) ∧
     (truthy ev.owner = false → (validate_step ctx ev).1.owner = ctx.owner) ∧
     (truthy ev.due = true → (validate_step ctx ev).1.due = ev.due) ∧
     (truthy ev.due = false → (validate_step ctx ev).1.due = ctx.due) ∧
     (validate_step ctx ev).1.requires_confirmation = true ∧
     (validate_step ctx ev).1.state = .ASSIGNED_PENDING) ∧
    (∀ (d : CDict) (cid : String), tcid ev = some cid →
      ∃ st, dget (analyse_step d ev).1 cid = some st ∧
        st.owner = pyOr ev.owner ((dget d cid).getD (initState cid)).owner ∧
        st.due = pyOr ev.due ((dget d cid).getD (initState cid)).due ∧
        st.requires_confirmation = true ∧ st.status = "assigned") := by
  constructor
  · refine ⟨?_, ?_, ?_, ?_, ?_, ?_⟩ <;>
      first
      | (intro ht; simp [validate_step, h, pyOr, ht])
      | simp [validate_step, h]
  · intro d cid htc
    refine ⟨step_state cid (dget d cid) ev, ?_, ?_, ?_, ?_, ?_⟩
    · unfold analyse_step
      rw [htc]
      exact dget_dset_self _ _ _
    all_goals simp [step_state, h]

/-- Witness for C3: the second ASSIGN of the counterexample pair
overwrites the owner Alice with Bob. -/
theorem C3_witness :
    (validate_step ⟨"C1", some "Alice", none, .ASSIGNED_PENDING, true⟩
        c3_ev2).1.owner = some "Bob" :=
  ((C3_assign ⟨"C1", some "Alice", none, .ASSIGNED_PENDING, true⟩ c3_ev2
      rfl).1.1 (by decide)).trans rfl

/-- Events of the C4 counterexample: an `ASSIGN` with no subsequent
`CONFIRM`, but followed by a `CANCEL` by the owner. -/
def c4_ev1 : UtteranceEvent :=
  { turn := 1, timestamp := "00:00:01", speaker := "Alice", text := "assign",
    act := .ASSIGN, commitment_id := some "C1", owner := some "Alice" }

def c4_ev2 : UtteranceEvent :=
  { turn := 2, timestamp := "00:00:02", speaker := "Alice", text := "cancel",
    act := .CANCEL, commitment_id := some "C1" }

/-- C4 counterexample: the commitment `[ASSIGN(Alice), CANCEL(Alice)]`
contains an ASSIGN with no subsequent CONFIRM, yet zero
`missing_confirmation` violations are emitted (the CANCEL cleared the
awaiting-confirmation flag). -/
theorem C4_counterexample :
    ((validate_commitment ⟨"C1", none, none, .UNASSIGNED, false⟩
        [c4_ev1, c4_ev2]).2.countP
      (fun v => v.violation_type == "missing_confirmation") = 0) ∧
    c4_ev1.act = .ASSIGN ∧ (∀ e ∈ [c4_ev1, c4_ev2], e.act ≠ .CONFIRM) := by
  decide

/-- C4 (amended): `missing_confirmation` is emitted exactly when the
awaiting-confirmation flag is still set after a nonempty replay (i.e.
the last ASSIGN or REVISE is not followed by any CONFIRM or CANCEL; an
ASSIGN later cancelled yields none), and then exactly once, with
severity warning, at the last event's turn, attributed to the owner or,
when no owner is recorded, to the last event's speaker. -/
theorem C4_missing (cid : String) (events : List UtteranceEvent) :
    ((validate_commitment ⟨cid, none, none, .UNASSIGNED, false⟩ events).2.countP
        (fun v => v.violation_type == "missing_confirmation") =
      if (validate_commitment ⟨cid, none, none, .UNASSIGNED, false⟩
          events).1.requires_confirmation ∧ events ≠ [] then 1 else 0) ∧
    (∀ v ∈ (validate_commitment ⟨cid, none, none, .UNASSIGNED, false⟩ events).2,
      v.violation_type = "missing_confirmation" →
      v.severity = "warning" ∧ v.commitment_id = cid ∧
      ∃ last, events.getLast? = some last ∧ v.turn = last.turn ∧
        v.speaker = normSpeaker (pyOr (validate_commitment
          ⟨cid, none, none, .UNASSIGNED, false⟩ events).1.owner
          (some last.speaker))) := by
  have hloop : (validate_loop ⟨cid, none, none, .UNASSIGNED, false⟩
      events).2.countP (fun v => v.violation_type == "missing_confirmation") = 0 := by
    rw [List.countP_eq_zero]
    intro v hv
    simpa using validate_loop_no_missing _ events v hv
  have hcid : (validate_loop ⟨cid, none, none, .UNASSIGNED, false⟩
      events).1.commitment_id = cid := validate_loop_cid _ _
  constructor
  · show ((validate_loop ⟨cid, none, none, .UNASSIGNED, false⟩ events).2 ++
        final_check (validate_loop ⟨cid, none, none, .UNASSIGNED, false⟩
          events).1 events).countP _ = _
    rw [List.countP_append, hloop, Nat.zero_add]
    cases hflag : (validate_loop ⟨cid, none, none, .UNASSIGNED, false⟩
        events).1.requires_confirmation with
    | false =>
      have hflag' : (validate_commitment ⟨cid, none, none, .UNASSIGNED, false⟩
          events).1.requires_confirmation = false := hflag
      rw [if_neg (by
        rintro ⟨hc, _⟩
        rw [hflag'] at hc
        exact Bool.false_ne_true hc)]
      unfold final_check
      rw [hflag]
      simp
    | true =>
      have hflag' : (validate_commitment ⟨cid, none, none, .UNASSIGNED, false⟩
          events).1.requires_confirmation = true := hflag
      rcases hlast : events.getLast? with _ | last
      · have hnil : events = [] := List.getLast?_eq_none_iff.mp hlast
        subst hnil
        simp [final_check]
      · have hne : events ≠ [] := by
          intro hnil; subst hnil; simp at hlast
        rw [if_pos ⟨hflag', hne⟩]
        unfold final_check
        rw [hflag, hlast]
        simp [mkViolation, List.countP_cons]
  · intro v hv hvt
    have hv' : v ∈ (validate_loop ⟨cid, none, none, .UNASSIGNED, false⟩
        events).2 ++ final_check (validate_loop ⟨cid, none, none,
        .UNASSIGNED, false⟩ events).1 events := hv
    rw [List.mem_append] at hv'
    rcases hv' with h | h
    · exact absurd hvt (validate_loop_no_missing _ events v h)
    · unfold final_check at h
      split at h
      · rcases hlast : events.getLast? with _ | last <;> rw [hlast] at h
        · simp at h
        · simp only [List.mem_singleton] at h
          subst h
          exact ⟨rfl, hcid, last, rfl, rfl, rfl⟩
      · simp at h

/-- Witness for C4: a lone un-confirmed ASSIGN yields exactly one
`missing_confirmation`. -/
theorem C4_witness :
    (validate_commitment ⟨"C1", none, none, .UNASSIGNED, false⟩
        [c4_ev1]).2.countP
      (fun v => v.violation_type == "missing_confirmation") = 1 :=
  (C4_missing "C1" [c4_ev1]).1.trans (by decide)

theorem bucket_add_ne_nil (acc : List (String × List UtteranceEvent))
    (cid : String) (ev : UtteranceEvent)
    (h : ∀ p ∈ acc, p.2 ≠ []) :
    ∀ p ∈ bucket_add acc cid ev, p.2 ≠ [] := by
  induction acc with
  | nil =>
    intro p hp
    simp [bucket_add] at hp
    simp [hp]
  | cons q rest ih =>
    obtain ⟨k, evs⟩ := q
    intro p hp
    by_cases hk : k = cid
    · subst hk
      simp [bucket_add] at hp
      rcases hp with hp | hp
      · simp [hp]
      · exact h p (List.mem_cons_of_mem _ hp)
    · simp [bucket_add, hk] at hp
      rcases hp with hp | hp
      · subst hp
        exact h (k, evs) (List.mem_cons_self _ _)
      · exact ih (fun q hq => h q (List.mem_cons_of_mem _ hq)) p hp

theorem commitments_ne_nil (us : List UtteranceEvent) :
    ∀ p ∈ commitments us, p.2 ≠ [] := by
  suffices hgen : ∀ (acc : List (String × List UtteranceEvent)),
      (∀ p ∈ acc, p.2 ≠ []) →
      ∀ p ∈ us.foldl (fun acc ev =>
        match tcid ev with
        | some cid => bucket_add acc cid ev
        | none => acc) acc, p.2 ≠ [] by
    exact hgen [] (by simp)
  induction us with
  | nil => intro acc hacc; simpa using hacc
  | cons ev rest ih =>
    intro acc hacc
    simp only [List.foldl_cons]
    refine ih _ ?_
    cases htc : tcid ev with
    | none => exact hacc
    | some cid => exact bucket_add_ne_nil acc cid ev hacc

/-- C5: whenever the feasibility cross-checker reports INFEASIBLE for a
commitment, `ConstraintValidator.validate` appends a
`cp_infeasible_transition` violation of severity error for that
commitment, attributed to the turn of the commitment's first event. -/
theorem C5_cp_infeasible (meeting : MeetingRecord)
    (run_cp : List UtteranceEvent → String × Option (List CommitmentStateEnum))
    (cid : String) (events : List UtteranceEvent)
    (hmem : (cid, events) ∈ commitments meeting.utterances)
    (hinf : (run_cp events).1 = "INFEASIBLE") :
    ∃ v ∈ (validate true run_cp meeting).violations,
      v.commitment_id = cid ∧ v.violation_type = "cp_infeasible_transition" ∧
      v.severity = "error" ∧
      ∃ e rest, events = e :: rest ∧ v.turn = e.turn := by
  obtain ⟨e, rest, hev⟩ : ∃ e rest, events = e :: rest := by
    rcases events with _ | ⟨e, rest⟩
    · exact absurd rfl (commitments_ne_nil meeting.utterances (cid, []) hmem)
    · exact ⟨e, rest, rfl⟩
  refine ⟨mkViolation cid e.turn "cp_infeasible_transition"
    "OR-Tools による遷移制約が充足不能" none "error", ?_,
    rfl, rfl, rfl, e, rest, hev, rfl⟩
  show _ ∈ ((commitments meeting.utterances).map
    (fun p => (p.1, validate_one true run_cp p.1 p.2))).flatMap (fun r => r.2.1)
  rw [List.mem_flatMap]
  refine ⟨(cid, validate_one true run_cp cid events), ?_, ?_⟩
  · exact List.mem_map_of_mem _ hmem
  · show _ ∈ (validate_one true run_cp cid events).1
    unfold validate_one
    rw [if_pos rfl, if_pos hinf, hev]
    simp [mkViolation]

def c5_ev : UtteranceEvent :=
  { turn := 4, timestamp := "00:00:04", speaker := "Alice", text := "assign",
    act := .ASSIGN, commitment_id := some "C5", owner := some "Alice" }

/-- Witness for C5: a one-event meeting checked with an oracle that
reports INFEASIBLE carries the `cp_infeasible_transition` violation. -/
theorem C5_witness :
    ∃ v ∈ (validate true (fun _ => ("INFEASIBLE", none))
        ⟨"M-C5", [c5_ev]⟩).violations,
      v.commitment_id = "C5" ∧ v.violation_type = "cp_infeasible_transition" ∧
      v.severity = "error" ∧
      ∃ e rest, [c5_ev] = e :: rest ∧ v.turn = e.turn :=
  C5_cp_infeasible ⟨"M-C5", [c5_ev]⟩ (fun _ => ("INFEASIBLE", none))
    "C5" [c5_ev] (by decide) rfl

/-- C6: when an event's act has a non-empty transition-table entry and
the pair (current state, nominal next state) is not among the permitted
pairs, the tracker emits an `invalid_transition` violation of severity
error at that event's turn; it still commits to the act's nominal next
state, and the forward pass continues with the remaining events. -/
theorem C6_invalid_transition (ctx : CommitmentContext)
    (ev : UtteranceEvent) (rest : List UtteranceEvent)
    (h1 : ALLOWED_TRANSITIONS ev.act ≠ [])
    (h2 : (ctx.state, next_state ev) ∉ ALLOWED_TRANSITIONS ev.act) :
    (∃ v ∈ (validate_step ctx ev).2, v.violation_type = "invalid_transition" ∧
      v.severity = "error" ∧ v.turn = ev.turn) ∧
    (validate_step ctx ev).1.state = next_state ev ∧
    validate_loop ctx (ev :: rest) =
      ((validate_loop (validate_step ctx ev).1 rest).1,
        (validate_step ctx ev).2 ++
          (validate_loop (validate_step ctx ev).1 rest).2) := by
  refine ⟨?_, ?_, rfl⟩
  · refine ⟨mkViolation ctx.commitment_id ev.turn "invalid_transition"
      (ctx.state.name ++ " から " ++ ev.act.str ++ " は許可されていない遷移")
      (some ev.speaker) "error", ?_, rfl, rfl, rfl⟩
    cases hact : ev.act <;>
      rw [hact] at h1 <;>
      simp only [next_state, hact] at h2 <;>
      simp only [validate_step, next_state, hact, List.mem_append]
    case OTHER => exact absurd rfl h1
    case ASSIGN =>
      rw [if_pos ⟨h1, h2⟩]
      simp
    case CONFIRM =>
      left
      rw [if_pos ⟨h1, h2⟩]
      simp
    case REVISE =>
      left
      rw [if_pos ⟨h1, h2⟩]
      simp
    case CANCEL =>
      left
      rw [if_pos ⟨h1, h2⟩]
      simp
  · cases hact : ev.act <;> rw [hact] at h1 <;>
      simp [validate_step, next_state, hact]
    case OTHER => exact absurd rfl h1

def c6_ev : UtteranceEvent :=
  { turn := 2, timestamp := "00:00:02", speaker := "Alice", text := "assign",
    act := .ASSIGN, commitment_id := some "C6", owner := some "Alice" }

/-- Witness for C6: an ASSIGN from state ASSIGNED_PENDING is not
permitted by the table, so `invalid_transition` is emitted at the
event's turn. -/
theorem C6_witness :
    ∃ v ∈ (validate_step ⟨"C6", some "Alice", none, .ASSIGNED_PENDING, true⟩
        c6_ev).2, v.violation_type = "invalid_transition" ∧
      v.severity = "error" ∧ v.turn = c6_ev.turn :=
  (C6_invalid_transition ⟨"C6", some "Alice", none, .ASSIGNED_PENDING, true⟩
    c6_ev [] (by decide) (by decide)).1

/-- C7: a CANCEL arriving as a commitment's first event leaves it
CANCELLED with a `cancel_without_assignment` violation (in both the
validator and the baseline analysis), and every CANCEL event — whatever
the cancel checks produced — sets the state to CANCELLED and clears the
awaiting-confirmation flag. -/
theorem C7_cancel (cid : String) (ev : UtteranceEvent)
    (ctx : CommitmentContext) (d : CDict) (h : ev.act = .CANCEL) :
    ((validate_step ⟨cid, none, none, .UNASSIGNED, false⟩ ev).1.state =
        .CANCELLED ∧
      ∃ v ∈ (validate_step ⟨cid, none, none, .UNASSIGNED, false⟩ ev).2,
        v.violation_type = "cancel_without_assignment") ∧
    ((validate_step ctx ev).1.state = .CANCELLED ∧
      (validate_step ctx ev).1.requires_confirmation = false) ∧
    (∀ cid', tcid ev = some cid' →
      (∃ st, dget (analyse_step d ev).1 cid' = some st ∧
        st.status = "cancelled" ∧ st.requires_confirmation = false) ∧
      (dget d cid' = none →
        ∃ c ∈ (analyse_step d ev).2, c.type = "cancel_without_assignment")) := by
  refine ⟨⟨?_, ?_⟩, ⟨?_, ?_⟩, ?_⟩
  · simp [validate_step, h]
  · refine ⟨mkViolation cid ev.turn "cancel_without_assignment"
      "ASSIGN 前に CANCEL が発生" (some ev.speaker) "error", ?_, rfl⟩
    simp only [validate_step, h, List.mem_append]
    right
    simp only [validate_cancel, List.mem_append]
    left; left; left
    simp
  · simp [validate_step, h]
  · simp [validate_step, h]
  · intro cid' htc
    constructor
    · refine ⟨step_state cid' (dget d cid') ev, ?_, ?_, ?_⟩
      · unfold analyse_step
        rw [htc]
        exact dget_dset_self _ _ _
      · simp [step_state, h]
      · simp [step_state, h]
    · intro hnone
      unfold analyse_step
      rw [htc]
      show ∃ c ∈ step_block cid' (dget d cid') ev, _
      rw [hnone]
      simp only [step_block, h]
      exact ⟨_, List.mem_singleton_self _, rfl⟩

def c7_ev : UtteranceEvent :=
  { turn := 1, timestamp := "00:00:01", speaker := "Carol", text := "cancel",
    act := .CANCEL, commitment_id := some "C7" }

/-- Witness for C7: a first-event CANCEL ends CANCELLED with
`cancel_without_assignment`. -/
theorem C7_witness :
    (validate_step ⟨"C7", none, none, .UNASSIGNED, false⟩ c7_ev).1.state =
        .CANCELLED ∧
    ∃ v ∈ (validate_step ⟨"C7", none, none, .UNASSIGNED, false⟩ c7_ev).2,
      v.violation_type = "cancel_without_assignment" :=
  (C7_cancel "C7" c7_ev ⟨"C7", none, none, .UNASSIGNED, false⟩ [] rfl).1

/-- C10: the state trace of `iter_commitment_states` has length
`len(events) + 1`, starts at UNASSIGNED, stays within the five lifecycle
states, and an OTHER event repeats the previous entry; any witness
assignment satisfying the cross-checker's constraint set enjoys the same
three invariants. -/
theorem C10_state_trace (events : List UtteranceEvent)
    (states : List CommitmentStateEnum) :
    ((iter_commitment_states events).length = events.length + 1 ∧
      (iter_commitment_states events).head? = some .UNASSIGNED ∧
      (∀ s ∈ iter_commitment_states events, s = .UNASSIGNED ∨
        s = .ASSIGNED_PENDING ∨ s = .CONFIRMED ∨ s = .REVISED_PENDING ∨
        s = .CANCELLED) ∧
      (∀ i e, events.get? i = some e → e.act = .OTHER →
        (iter_commitment_states events).get? (i + 1) =
          (iter_commitment_states events).get? i)) ∧
    (cp_constraints events states = true →
      states.length = events.length + 1 ∧
      states.head? = some .UNASSIGNED ∧
      (∀ s ∈ states, s = .UNASSIGNED ∨ s = .ASSIGNED_PENDING ∨
        s = .CONFIRMED ∨ s = .REVISED_PENDING ∨ s = .CANCELLED) ∧
      (∀ i e, events.get? i = some e → e.act = .OTHER →
        states.get? (i + 1) = states.get? i)) := by
  constructor
  · refine ⟨?_, rfl, ?_, ?_⟩
    · simp [iter_commitment_states, iter_go_length]
    · intro s _
      cases s <;> simp
    · intro i e hi hact
      exact iter_go_other .UNASSIGNED events i e hi hact
  · intro h
    rcases states with _ | ⟨s0, rest⟩
    · simp [cp_constraints] at h
    · simp only [cp_constraints, Bool.and_eq_true, beq_iff_eq] at h
      obtain ⟨hs0, hsteps⟩ := h
      subst hs0
      obtain ⟨hlen, hoth⟩ := cp_steps_other .UNASSIGNED events rest hsteps
      refine ⟨by simp [hlen], rfl, ?_, hoth⟩
      intro s _
      cases s <;> simp

def c10_ev : UtteranceEvent :=
  { turn := 1, timestamp := "00:00:01", speaker := "Alice", text := "chat",
    act := .OTHER }

/-- Witness for C10: on a single OTHER event, both the reported trace
and a concrete CP witness repeat the initial state. -/
theorem C10_witness :
    (iter_commitment_states [c10_ev]).get? 1 =
      (iter_commitment_states [c10_ev]).get? 0 ∧
    ([CommitmentStateEnum.UNASSIGNED, .UNASSIGNED].get? 1 =
      [CommitmentStateEnum.UNASSIGNED, .UNASSIGNED].get? 0) :=
  ⟨(C10_state_trace [c10_ev] []).1.2.2.2 0 c10_ev rfl rfl,
    ((C10_state_trace [c10_ev] [.UNASSIGNED, .UNASSIGNED]).2
      (by decide)).2.2.2 0 c10_ev rfl rfl⟩

/-- C9: the rule-based analysis is a pure function of the meeting record
(re-running it yields identical violations and metrics), and the
utterance sort applied at `MeetingRecord` construction is an ascending
stable sort on turns: the sorted list is pairwise ordered by turn, and
the events carrying any fixed turn value appear in exactly their
original relative order. -/
theorem C9_deterministic_stable (m : MeetingRecord)
    (us : List UtteranceEvent) (t : Nat) :
    analyse_meeting m = analyse_meeting m ∧
    (sort_utterances us).Pairwise (fun a b => a.turn ≤ b.turn) ∧
    (sort_utterances us).filter (fun ev => ev.turn == t) =
      us.filter (fun ev => ev.turn == t) := by
  have htrans : ∀ a b c : UtteranceEvent,
      decide (a.turn ≤ b.turn) → decide (b.turn ≤ c.turn) →
      decide (a.turn ≤ c.turn) := by
    intro a b c hab hbc
    simp only [decide_eq_true_eq] at hab hbc ⊢
    omega
  have htotal : ∀ a b : UtteranceEvent,
      decide (a.turn ≤ b.turn) || decide (b.turn ≤ a.turn) := by
    intro a b
    rcases Nat.le_total a.turn b.turn with h | h <;> simp [h]
  refine ⟨rfl, ?_, ?_⟩
  · have := @List.sorted_mergeSort UtteranceEvent
      (fun a b : UtteranceEvent => decide (a.turn ≤ b.turn)) htrans htotal us
    exact this.imp (fun h => by simpa using h)
  · have h1 : List.Sublist (us.filter (fun ev => ev.turn == t)) us :=
      List.filter_sublist us
    have hp : (us.filter (fun ev => ev.turn == t)).Pairwise
        (fun a b => decide (a.turn ≤ b.turn) = true) := by
      refine List.pairwise_of_forall_mem_list ?_
      intro a ha b hb
      have ha' := List.of_mem_filter ha
      have hb' := List.of_mem_filter hb
      simp only [beq_iff_eq] at ha' hb'
      simp [ha', hb']
    have h2 : List.Sublist (us.filter (fun ev => ev.turn == t))
        (sort_utterances us) :=
      List.sublist_mergeSort htrans htotal hp h1
    have h3 : (us.filter (fun ev => ev.turn == t)).filter
        (fun ev => ev.turn == t) = us.filter (fun ev => ev.turn == t) :=
      List.filter_eq_self.mpr (fun a ha => List.mem_filter.mp ha |>.2)
    have h4 : List.Sublist (us.filter (fun ev => ev.turn == t))
        ((sort_utterances us).filter (fun ev => ev.turn == t)) := by
      rw [← h3]
      exact h2.filter _
    have h5 : ((sort_utterances us).filter (fun ev => ev.turn == t)).length =
        (us.filter (fun ev => ev.turn == t)).length :=
      ((List.mergeSort_perm us _).filter _).length_eq
    exact (h4.eq_of_length h5.symm).symm

/-- Witness for C9: the turn-5 events of a two-event equal-turn list
appear in the sorted output in their original relative order. -/
theorem C9_witness :
    (sort_utterances [⟨5, "00:00:05", "Alice", "x", .OTHER, none, none,
        none, none, none⟩,
      ⟨5, "00:00:06", "Bob", "y", .OTHER, none, none, none, none,
        none⟩]).filter (fun ev => ev.turn == 5) =
    ([⟨5, "00:00:05", "Alice", "x", .OTHER, none, none, none, none, none⟩,
      ⟨5, "00:00:06", "Bob", "y", .OTHER, none, none, none, none,
        none⟩] : List UtteranceEvent).filter (fun ev => ev.turn == 5) :=
  (C9_deterministic_stable ⟨"M", []⟩
    [⟨5, "00:00:05", "Alice", "x", .OTHER, none, none, none, none, none⟩,
      ⟨5, "00:00:06", "Bob", "y", .OTHER, none, none, none, none, none⟩]
    5).2.2

/-- Order-preserving interleavings: `Ilv l1 l2 l` says `l` merges `l1`
and `l2` keeping each one's internal order.  Both the concatenation and
the turn-stable merge of two meetings' event lists are interleavings. -/
inductive Ilv {α : Type} : List α → List α → List α → Prop
  | nil : Ilv [] [] []
  | left {x : α} {l1 l2 l : List α} : Ilv l1 l2 l → Ilv (x :: l1) l2 (x :: l)
  | right {x : α} {l1 l2 l : List α} : Ilv l1 l2 l → Ilv l1 (x :: l2) (x :: l)

theorem Ilv.nil_left {α : Type} (l : List α) : Ilv [] l l := by
  induction l with
  | nil => exact Ilv.nil
  | cons x rest ih => exact Ilv.right ih

theorem Ilv.nil_right {α : Type} (l : List α) : Ilv l [] l := by
  induction l with
  | nil => exact Ilv.nil
  | cons x rest ih => exact Ilv.left ih

theorem Ilv.perm {α : Type} {l1 l2 l : List α} (h : Ilv l1 l2 l) :
    l.Perm (l1 ++ l2) := by
  induction h with
  | nil => exact List.Perm.refl []
  | left _ ih => exact ih.cons _
  | right _ ih => exact (ih.cons _).trans List.perm_middle.symm

theorem Ilv.append {α : Type} {a1 a2 a b1 b2 b : List α}
    (ha : Ilv a1 a2 a) (hb : Ilv b1 b2 b) :
    Ilv (a1 ++ b1) (a2 ++ b2) (a ++ b) := by
  induction ha with
  | nil => exact hb
  | left _ ih => exact Ilv.left ih
  | right _ ih => exact Ilv.right ih

theorem Ilv.filterMap {α β : Type} (f : α → Option β) {l1 l2 l : List α}
    (h : Ilv l1 l2 l) :
    Ilv (l1.filterMap f) (l2.filterMap f) (l.filterMap f) := by
  induction h with
  | nil => exact Ilv.nil
  | left hx ih =>
    rw [List.filterMap_cons, List.filterMap_cons]
    cases f _ with
    | none => exact ih
    | some b => exact Ilv.left ih
  | right hx ih =>
    rw [List.filterMap_cons, List.filterMap_cons]
    cases f _ with
    | none => exact ih
    | some b => exact Ilv.right ih

theorem ilv_append {α : Type} (l1 l2 : List α) : Ilv l1 l2 (l1 ++ l2) := by
  induction l1 with
  | nil => exact Ilv.nil_left l2
  | cons x rest ih => exact Ilv.left ih

theorem dget_ilv_left {d1 d2 d : CDict} {cid : String}
    (hI : Ilv d1 d2 d) (h : cid ∉ d2.map Prod.fst) :
    dget d cid = dget d1 cid := by
  induction hI with
  | nil => rfl
  | left hx ih =>
    rename_i p l1 l2 l
    obtain ⟨k, v⟩ := p
    by_cases hk : k = cid
    · subst hk; simp [dget]
    · simp only [dget, if_neg hk]
      exact ih h
  | right hx ih =>
    rename_i p l1 l2 l
    obtain ⟨k, v⟩ := p
    have hk : k ≠ cid := by
      intro he
      exact h (by simp [he])
    simp only [dget, if_neg hk]
    exact ih (fun he => h (by simp at he ⊢; exact Or.inr he))

theorem dset_ilv_left {d1 d2 d : CDict} {cid : String}
    (st : CommitmentState) (hI : Ilv d1 d2 d)
    (h : cid ∉ d2.map Prod.fst) :
    Ilv (dset d1 cid st) d2 (dset d cid st) := by
  induction hI with
  | nil => exact Ilv.left Ilv.nil
  | left hx ih =>
    rename_i p l1 l2 l
    obtain ⟨k, v⟩ := p
    by_cases hk : k = cid
    · subst hk
      simp only [dset, if_pos rfl]
      exact Ilv.left hx
    · simp only [dset, if_neg hk]
      exact Ilv.left (ih h)
  | right hx ih =>
    rename_i p l1 l2 l
    obtain ⟨k, v⟩ := p
    have hk : k ≠ cid := by
      intro he
      exact h (by simp [he])
    simp only [dset, if_neg hk]
    exact Ilv.right (ih (fun he => h (by simp at he ⊢; exact Or.inr he)))

theorem Ilv.swap {α : Type} {l1 l2 l : List α} (h : Ilv l1 l2 l) :
    Ilv l2 l1 l := by
  induction h with
  | nil => exact Ilv.nil
  | left _ ih => exact Ilv.right ih
  | right _ ih => exact Ilv.left ih

theorem dget_ilv_right {d1 d2 d : CDict} {cid : String}
    (hI : Ilv d1 d2 d) (h : cid ∉ d1.map Prod.fst) :
    dget d cid = dget d2 cid :=
  dget_ilv_left hI.swap h

theorem dset_ilv_right {d1 d2 d : CDict} {cid : String}
    (st : CommitmentState) (hI : Ilv d1 d2 d)
    (h : cid ∉ d1.map Prod.fst) :
    Ilv d1 (dset d2 cid st) (dset d cid st) :=
  (dset_ilv_left st hI.swap h).swap

theorem keys_dset_sub {d : CDict} {cid c : String} {st : CommitmentState}
    (h : c ∈ (dset d cid st).map Prod.fst) :
    c ∈ d.map Prod.fst ∨ c = cid := by
  rw [List.mem_map] at h
  obtain ⟨p, hp, hpc⟩ := h
  rcases mem_dset hp with h' | h'
  · left; rw [← hpc]; exact List.mem_map_of_mem _ h'
  · right; rw [← hpc, h']

theorem analyse_loop_cons (d : CDict) (ev : UtteranceEvent)
    (rest : List UtteranceEvent) :
    analyse_loop d (ev :: rest) =
      ((analyse_loop (analyse_step d ev).1 rest).1,
        (analyse_step d ev).2 ++ (analyse_loop (analyse_step d ev).1 rest).2) :=
  rfl

theorem analyse_step_none {d : CDict} {ev : UtteranceEvent}
    (h : tcid ev = none) : analyse_step d ev = (d, []) := by
  unfold analyse_step
  rw [h]

theorem analyse_step_some {d : CDict} {ev : UtteranceEvent} {cid : String}
    (h : tcid ev = some cid) :
    analyse_step d ev =
      (dset d cid (step_state cid (dget d cid) ev),
        step_block cid (dget d cid) ev) := by
  unfold analyse_step
  rw [h]

/-- Core simulation for C8: on commitment-disjoint interleaved inputs,
the `analyse_meeting` event loop produces a commitment dict and a
contradiction list that interleave the two runs' dicts and lists. -/
theorem analyse_loop_ilv {u1 u2 u : List UtteranceEvent}
    (hu : Ilv u1 u2 u) :
    ∀ {d1 d2 d : CDict}, Ilv d1 d2 d →
    (∀ c ∈ u1.filterMap tcid, c ∉ d2.map Prod.fst) →
    (∀ c ∈ u2.filterMap tcid, c ∉ d1.map Prod.fst) →
    (∀ c ∈ u1.filterMap tcid, c ∉ u2.filterMap tcid) →
    Ilv (analyse_loop d1 u1).1 (analyse_loop d2 u2).1 (analyse_loop d u).1 ∧
    Ilv (analyse_loop d1 u1).2 (analyse_loop d2 u2).2 (analyse_loop d u).2 := by
  induction hu with
  | nil =>
    intro d1 d2 d hd _ _ _
    exact ⟨hd, Ilv.nil⟩
  | @left ev u1' u2' u' hu' ih =>
    intro d1 d2 d hd h12 h21 hdisj
    cases htc : tcid ev with
    | none =>
      have h12' : ∀ c ∈ u1'.filterMap tcid, c ∉ d2.map Prod.fst := by
        intro c hc
        exact h12 c (by rw [List.filterMap_cons, htc]; exact hc)
      have hdisj' : ∀ c ∈ u1'.filterMap tcid, c ∉ u2'.filterMap tcid := by
        intro c hc
        exact hdisj c (by rw [List.filterMap_cons, htc]; exact hc)
      obtain ⟨ha, hb⟩ := ih hd h12' h21 hdisj'
      rw [analyse_loop_cons d1, analyse_loop_cons d,
        analyse_step_none htc, analyse_step_none htc]
      exact ⟨ha, hb⟩
    | some cid =>
      have hhead : cid ∈ (ev :: u1').filterMap tcid := by
        rw [List.filterMap_cons, htc]
        exact List.mem_cons_self _ _
      have hcid2 : cid ∉ d2.map Prod.fst := h12 cid hhead
      have hget : dget d cid = dget d1 cid := dget_ilv_left hd hcid2
      have hd' : Ilv (dset d1 cid (step_state cid (dget d1 cid) ev)) d2
          (dset d cid (step_state cid (dget d1 cid) ev)) :=
        dset_ilv_left _ hd hcid2
      have h12' : ∀ c ∈ u1'.filterMap tcid, c ∉ d2.map Prod.fst := by
        intro c hc
        exact h12 c (by rw [List.filterMap_cons, htc]; exact List.mem_cons_of_mem _ hc)
      have h21' : ∀ c ∈ u2'.filterMap tcid,
          c ∉ (dset d1 cid (step_state cid (dget d1 cid) ev)).map Prod.fst := by
        intro c hc hmem
        rcases keys_dset_sub hmem with h' | h'
        · exact h21 c hc h'
        · subst h'
          exact hdisj c hhead hc
      have hdisj' : ∀ c ∈ u1'.filterMap tcid, c ∉ u2'.filterMap tcid := by
        intro c hc
        exact hdisj c (by rw [List.filterMap_cons, htc]; exact List.mem_cons_of_mem _ hc)
      obtain ⟨ha, hb⟩ := ih hd' h12' h21' hdisj'
      rw [analyse_loop_cons d1, analyse_loop_cons d,
        analyse_step_some htc, analyse_step_some htc, hget]
      exact ⟨ha, Ilv.append (Ilv.nil_right _) hb⟩
  | @right ev u1' u2' u' hu' ih =>
    intro d1 d2 d hd h12 h21 hdisj
    cases htc : tcid ev with
    | none =>
      have h21' : ∀ c ∈ u2'.filterMap tcid, c ∉ d1.map Prod.fst := by
        intro c hc
        exact h21 c (by rw [List.filterMap_cons, htc]; exact hc)
      have hdisj' : ∀ c ∈ u1'.filterMap tcid, c ∉ u2'.filterMap tcid := by
        intro c hc hc2
        exact hdisj c hc (by rw [List.filterMap_cons, htc]; exact hc2)
      obtain ⟨ha, hb⟩ := ih hd h12 h21' hdisj'
      rw [analyse_loop_cons d2, analyse_loop_cons d,
        analyse_step_none htc, analyse_step_none htc]
      exact ⟨ha, hb⟩
    | some cid =>
      have hhead : cid ∈ (ev :: u2').filterMap tcid := by
        rw [List.filterMap_cons, htc]
        exact List.mem_cons_self _ _
      have hcid1 : cid ∉ d1.map Prod.fst := h21 cid hhead
      have hget : dget d cid = dget d2 cid := dget_ilv_right hd hcid1
      have hd' : Ilv d1 (dset d2 cid (step_state cid (dget d2 cid) ev))
          (dset d cid (step_state cid (dget d2 cid) ev)) :=
        dset_ilv_right _ hd hcid1
      have h12' : ∀ c ∈ u1'.filterMap tcid,
          c ∉ (dset d2 cid (step_state cid (dget d2 cid) ev)).map Prod.fst := by
        intro c hc hmem
        rcases keys_dset_sub hmem with h' | h'
        · exact h12 c hc h'
        · subst h'
          exact hdisj c hc hhead
      have h21' : ∀ c ∈ u2'.filterMap tcid, c ∉ d1.map Prod.fst := by
        intro c hc
        exact h21 c (by rw [List.filterMap_cons, htc]; exact List.mem_cons_of_mem _ hc)
      have hdisj' : ∀ c ∈ u1'.filterMap tcid, c ∉ u2'.filterMap tcid := by
        intro c hc hc2
        exact hdisj c hc (by rw [List.filterMap_cons, htc]; exact List.mem_cons_of_mem _ hc2)
      obtain ⟨ha, hb⟩ := ih hd' h12' h21' hdisj'
      rw [analyse_loop_cons d2, analyse_loop_cons d,
        analyse_step_some htc, analyse_step_some htc, hget]
      exact ⟨ha, Ilv.append (Ilv.nil_left _) hb⟩

theorem analyse_loop_keys_sub (us : List UtteranceEvent) :
    ∀ (d : CDict), ∀ k ∈ (analyse_loop d us).1.map Prod.fst,
      k ∈ d.map Prod.fst ∨ k ∈ us.filterMap tcid := by
  induction us with
  | nil => intro d k hk; exact Or.inl hk
  | cons ev rest ih =>
    intro d k hk
    rw [analyse_loop_cons] at hk
    rcases ih (analyse_step d ev).1 k hk with h | h
    · cases htc : tcid ev with
      | none =>
        rw [analyse_step_none htc] at h
        exact Or.inl h
      | some cid =>
        rw [analyse_step_some htc] at h
        rcases keys_dset_sub h with h' | h'
        · exact Or.inl h'
        · right
          rw [List.filterMap_cons, htc, h']
          exact List.mem_cons_self _ _
    · right
      rw [List.filterMap_cons]
      cases tcid ev
      · exact h
      · exact List.mem_cons_of_mem _ h

theorem analyse_meeting_cids (mid : String) (u : List UtteranceEvent) :
    ∀ c ∈ (analyse_meeting ⟨mid, u⟩).contradictions,
      c.commitment_id ∈ u.filterMap tcid := by
  intro c hc
  have h1 := analyse_contradiction_keys ⟨mid, u⟩ c hc
  rcases analyse_loop_keys_sub u [] c.commitment_id h1 with h | h
  · simp at h
  · exact h

/-- C8: for two meetings with disjoint commitment-id spaces, summing the
two per-meeting metric summaries and recomputing the rate from the
summed counts (`aggregate_metrics`) gives exactly the metrics of
analysing any interleaving of the two event lists (in particular their
turn-merged combination) in a single pass. -/
theorem C8_batch_aggregation (mid1 mid2 mid : String)
    (u1 u2 u : List UtteranceEvent) (hu : Ilv u1 u2 u)
    (hdisj : ∀ c ∈ u1.filterMap tcid, c ∉ u2.filterMap tcid) :
    (aggregate_metrics [(analyse_meeting ⟨mid1, u1⟩).metrics,
        (analyse_meeting ⟨mid2, u2⟩).metrics]).total_commitments =
      (analyse_meeting ⟨mid, u⟩).metrics.total_commitments ∧
    (aggregate_metrics [(analyse_meeting ⟨mid1, u1⟩).metrics,
        (analyse_meeting ⟨mid2, u2⟩).metrics]).contradiction_count =
      (analyse_meeting ⟨mid, u⟩).metrics.contradiction_count ∧
    (aggregate_metrics [(analyse_meeting ⟨mid1, u1⟩).metrics,
        (analyse_meeting ⟨mid2, u2⟩).metrics]).contradicted_commitments =
      (analyse_meeting ⟨mid, u⟩).metrics.contradicted_commitments ∧
    (aggregate_metrics [(analyse_meeting ⟨mid1, u1⟩).metrics,
        (analyse_meeting ⟨mid2, u2⟩).metrics]).contradiction_rate =
      (analyse_meeting ⟨mid, u⟩).metrics.contradiction_rate ∧
    (∀ t, (aggregate_metrics [(analyse_meeting ⟨mid1, u1⟩).metrics,
        (analyse_meeting ⟨mid2, u2⟩).metrics]).contradiction_types t =
      (analyse_meeting ⟨mid, u⟩).metrics.contradiction_types t) := by
  obtain ⟨hdI, hcI⟩ :=
    analyse_loop_ilv hu Ilv.nil (by simp) (by simp) hdisj
  have hct : Ilv
      ((analyse_loop [] u1).2 ++ (analyse_loop [] u1).1.filterMap final_one)
      ((analyse_loop [] u2).2 ++ (analyse_loop [] u2).1.filterMap final_one)
      ((analyse_loop [] u).2 ++ (analyse_loop [] u).1.filterMap final_one) :=
    Ilv.append hcI (Ilv.filterMap final_one hdI)
  have hdP := hdI.perm
  have hcP := hct.perm
  have htot : (analyse_loop [] u1).1.length + (analyse_loop [] u2).1.length =
      (analyse_loop [] u).1.length := by
    rw [hdP.length_eq, List.length_append]
  have hcnt : ((analyse_loop [] u1).2 ++
        (analyse_loop [] u1).1.filterMap final_one).length +
      ((analyse_loop [] u2).2 ++
        (analyse_loop [] u2).1.filterMap final_one).length =
      ((analyse_loop [] u).2 ++
        (analyse_loop [] u).1.filterMap final_one).length := by
    rw [hcP.length_eq]
    simp only [List.length_append]
  have hmapP : (((analyse_loop [] u).2 ++
      (analyse_loop [] u).1.filterMap final_one).map
        (fun c => c.commitment_id)).Perm
      ((((analyse_loop [] u1).2 ++
        (analyse_loop [] u1).1.filterMap final_one).map
          (fun c => c.commitment_id)) ++
       (((analyse_loop [] u2).2 ++
        (analyse_loop [] u2).1.filterMap final_one).map
          (fun c => c.commitment_id))) := by
    have := hcP.map (fun c => c.commitment_id)
    simpa using this
  have hdisjF : Disjoint
      ((((analyse_loop [] u1).2 ++
        (analyse_loop [] u1).1.filterMap final_one).map
          (fun c => c.commitment_id)).toFinset)
      ((((analyse_loop [] u2).2 ++
        (analyse_loop [] u2).1.filterMap final_one).map
          (fun c => c.commitment_id)).toFinset) := by
    rw [Finset.disjoint_left]
    intro x hx1 hx2
    rw [List.mem_toFinset, List.mem_map] at hx1 hx2
    obtain ⟨a, ha, hax⟩ := hx1
    obtain ⟨b, hb, hbx⟩ := hx2
    have h1 : x ∈ u1.filterMap tcid :=
      hax ▸ analyse_meeting_cids mid1 u1 a ha
    have h2 : x ∈ u2.filterMap tcid :=
      hbx ▸ analyse_meeting_cids mid2 u2 b hb
    exact hdisj x h1 h2
  have hcontr : ((((analyse_loop [] u1).2 ++
        (analyse_loop [] u1).1.filterMap final_one).map
          (fun c => c.commitment_id)).dedup).length +
      ((((analyse_loop [] u2).2 ++
        (analyse_loop [] u2).1.filterMap final_one).map
          (fun c => c.commitment_id)).dedup).length =
      ((((analyse_loop [] u).2 ++
        (analyse_loop [] u).1.filterMap final_one).map
          (fun c => c.commitment_id)).dedup).length := by
    rw [← List.card_toFinset, ← List.card_toFinset, ← List.card_toFinset,
      List.toFinset_eq_of_perm _ _ hmapP, List.toFinset_append,
      Finset.card_union_of_disjoint hdisjF]
  refine ⟨?_, ?_, ?_, ?_, ?_⟩
  · show (analyse_loop [] u1).1.length +
        ((analyse_loop [] u2).1.length + 0) = (analyse_loop [] u).1.length
    rw [Nat.add_zero]
    exact htot
  · show ((analyse_loop [] u1).2 ++
        (analyse_loop [] u1).1.filterMap final_one).length +
      (((analyse_loop [] u2).2 ++
        (analyse_loop [] u2).1.filterMap final_one).length + 0) =
      ((analyse_loop [] u).2 ++
        (analyse_loop [] u).1.filterMap final_one).length
    rw [Nat.add_zero]
    exact hcnt
  · show ((((analyse_loop [] u1).2 ++
        (analyse_loop [] u1).1.filterMap final_one).map
          (fun c => c.commitment_id)).dedup).length +
      (((((analyse_loop [] u2).2 ++
        (analyse_loop [] u2).1.filterMap final_one).map
          (fun c => c.commitment_id)).dedup).length + 0) =
      ((((analyse_loop [] u).2 ++
        (analyse_loop [] u).1.filterMap final_one).map
          (fun c => c.commitment_id)).dedup).length
    rw [Nat.add_zero]
    exact hcontr
  · show (if (analyse_loop [] u1).1.length +
          ((analyse_loop [] u2).1.length + 0) = 0 then (0 : ℚ)
        else ((((((analyse_loop [] u1).2 ++
          (analyse_loop [] u1).1.filterMap final_one).map
            (fun c => c.commitment_id)).dedup).length +
          (((((analyse_loop [] u2).2 ++
          (analyse_loop [] u2).1.filterMap final_one).map
            (fun c => c.commitment_id)).dedup).length + 0) : Nat) : ℚ) /
          (((analyse_loop [] u1).1.length +
            ((analyse_loop [] u2).1.length + 0) : Nat) : ℚ)) =
      (if (analyse_loop [] u).1.length = 0 then (0 : ℚ)
        else ((((((analyse_loop [] u).2 ++
          (analyse_loop [] u).1.filterMap final_one).map
            (fun c => c.commitment_id)).dedup).length : Nat) : ℚ) /
          (((analyse_loop [] u).1.length : Nat) : ℚ))
    rw [Nat.add_zero, Nat.add_zero, htot, hcontr]
  · intro t
    show ((analyse_loop [] u1).2 ++
        (analyse_loop [] u1).1.filterMap final_one).countP
          (fun c => c.type == t) +
      (((analyse_loop [] u2).2 ++
        (analyse_loop [] u2).1.filterMap final_one).countP
          (fun c => c.type == t) + 0) =
      ((analyse_loop [] u).2 ++
        (analyse_loop [] u).1.filterMap final_one).countP
          (fun c => c.type == t)
    rw [Nat.add_zero, ← List.countP_append]
    exact (hcP.countP_eq _).symm

def c8_ev1 : UtteranceEvent :=
  { turn := 1, timestamp := "00:00:01", speaker := "Alice", text := "assign",
    act := .ASSIGN, commitment_id := some "A1", owner := some "Alice" }

def c8_ev2 : UtteranceEvent :=
  { turn := 1, timestamp := "00:00:01", speaker := "Bob", text := "cancel",
    act := .CANCEL, commitment_id := some "B1" }

/-- Witness for C8: aggregating the two one-event meetings `[A1-ASSIGN]`
and `[B1-CANCEL]` reproduces the single-pass totals of the combined
meeting. -/
theorem C8_witness :
    (aggregate_metrics [(analyse_meeting ⟨"M1", [c8_ev1]⟩).metrics,
        (analyse_meeting ⟨"M2", [c8_ev2]⟩).metrics]).total_commitments =
      (analyse_meeting ⟨"M", [c8_ev1, c8_ev2]⟩).metrics.total_commitments ∧
    (aggregate_metrics [(analyse_meeting ⟨"M1", [c8_ev1]⟩).metrics,
        (analyse_meeting ⟨"M2", [c8_ev2]⟩).metrics]).contradiction_rate =
      (analyse_meeting ⟨"M", [c8_ev1, c8_ev2]⟩).metrics.contradiction_rate := by
  have h := C8_batch_aggregation "M1" "M2" "M" [c8_ev1] [c8_ev2]
    [c8_ev1, c8_ev2] (ilv_append [c8_ev1] [c8_ev2]) (by decide)
  exact ⟨h.1, h.2.2.2.1⟩

end C2
